import Mathlib

set_option maxRecDepth 2000

/-!
Verification of the tariff pricing & billing-estimation engine of the
`ha-octopus-energy-es` integration, as a shallow embedding in Lean 4.

Conventions of the embedding:
* Python `float` arithmetic is modelled over `ℚ` (the spec declares no
  precision requirements beyond decimal rounding of outputs).
* Python's built-in `round(x, n)` (round-half-to-even) is modelled by
  `pyRound`.
* `datetime.date` values are modelled by the `Date` structure; Python's
  `date.toordinal()` is `rataDie`, `date.weekday()` is `weekdayPy`,
  `timedelta(days = n)` addition is `addDays`, and date comparison and
  subtraction go through `rataDie`, exactly as CPython implements them.
* The standard-library ISO-8601 parser combined with Europe/Madrid
  localization (`_parse_datetime_to_madrid` in `sensor.py`, a wrapper
  around `datetime.fromisoformat` / `astimezone`) is abstracted as an
  explicit function argument `parse : String → Option Date`: the
  aggregation code under verification only consumes its result, and the
  claims quantify over arbitrary record sets.

The file is organised as all definitions (the embedding) first, then the
theorems settling the claims.
-/

/-- Python's built-in `round(x, p)`: round to `p` decimal digits with
ties going to the nearest even multiple (banker's rounding). -/
def pyRound (p : Nat) (x : ℚ) : ℚ :=
  let s : ℚ := (10 : ℚ) ^ p
  let y := x * s
  let n : ℤ := ⌊y⌋
  let f : ℚ := y - (n : ℚ)
  let n2 : ℤ :=
    if f < 1/2 then n
    else if 1/2 < f then n + 1
    else if n % 2 = 0 then n else n + 1
  (n2 : ℚ) / s

/-- A proleptic-Gregorian calendar date, as Python's `datetime.date`. -/
structure Date where
  year : Nat
  month : Nat
  day : Nat
deriving DecidableEq, Repr

/-- Gregorian leap-year test. -/
def isLeap (y : Nat) : Bool :=
  (y % 4 == 0 && y % 100 != 0) || y % 400 == 0

/-- Number of days in month `m` of year `y` (months are 1-based). -/
def daysInMonth (y m : Nat) : Nat :=
  match m with
  | 2 => if isLeap y then 29 else 28
  | 4 => 30 | 6 => 30 | 9 => 30 | 11 => 30
  | _ => 31

/-- Days in year `y` strictly before the first day of month `m`. -/
def daysBeforeMonth (y m : Nat) : Nat :=
  (List.range (m - 1)).foldl (fun acc i => acc + daysInMonth y (i + 1)) 0

/-- Python's `date.toordinal()`: day number with 0001-01-01 ↦ 1. -/
def rataDie (d : Date) : Nat :=
  let y := d.year - 1
  365 * y + y / 4 - y / 100 + y / 400 + daysBeforeMonth d.year d.month + d.day

/-- Python's `date.weekday()`: Monday = 0, …, Sunday = 6. -/
def weekdayPy (d : Date) : Nat :=
  (rataDie d + 6) % 7

/-- Monday–Friday test (`TariffCalculator._is_weekday`). -/
def isWeekdayDate (d : Date) : Bool :=
  weekdayPy d < 5

/-- The day after `d` (Python `d + timedelta(days=1)`). -/
def succDay (d : Date) : Date :=
  if d.day < daysInMonth d.year d.month then ⟨d.year, d.month, d.day + 1⟩
  else if d.month < 12 then ⟨d.year, d.month + 1, 1⟩
  else ⟨d.year + 1, 1, 1⟩

/-- Python `d + timedelta(days=n)` for `n ≥ 0` (iterated `succDay`). -/
def addDays (d : Date) : Nat → Date
  | 0 => d
  | n + 1 => addDays (succDay d) n

/-- Linearized month index `12*year + month`, used to reason about
calendar-month crossings. -/
def monthLin (d : Date) : Nat :=
  12 * d.year + d.month

/-! ## C1 — daily cost breakdown (Contract A)
`OctopusEnergyESDailyCostSensor.native_value` (sensor.py:1288-1298)
obtains the breakdown from `tariff_calculator.calculate_daily_cost`. -/

/-- Result record of the daily-cost computation (Contract A). -/
structure DailyCostBreakdown where
  base : ℚ
  other_concepts : ℚ
  electricity_tax : ℚ
  vat : ℚ
  total : ℚ
deriving DecidableEq, Repr

/-- Modelled from the spec: `TariffCalculator.calculate_daily_cost` is
invoked by `OctopusEnergyESDailyCostSensor.native_value` (sensor.py:1290)
but the method itself is absent from the provided sources (only its call
site exists); modelled from Contract A of the spec — `base = energy_cost +
(power_cost or 0) + (management_fee_daily or 0)`, `electricity_tax = base *
electricity_tax_rate`, `vat = (base + electricity_tax) * vat_rate`,
`total = base + electricity_tax + vat`, internal accumulation in full
precision. The tax rates come from the tariff configuration. -/
def calculate_daily_cost (energy_cost : ℚ)
    (power_cost management_fee_daily : Option ℚ)
    (electricity_tax_rate vat_rate : ℚ) : DailyCostBreakdown :=
  let base := energy_cost + power_cost.getD 0 + management_fee_daily.getD 0
  let tax := base * electricity_tax_rate
  let vat := (base + tax) * vat_rate
  { base := base
    other_concepts := 0
    electricity_tax := tax
    vat := vat
    total := base + tax + vat }

/-! ## C10 — last-invoice unit-guessing heuristic
`OctopusEnergyESLastInvoiceSensor.native_value` (sensor.py:1336-1343). -/

/-- Embeds sensor.py:1340-1344: the reported last-invoice amount, from the
`amount` field of `billing["last_invoice"]` (`None` when absent):
`float(amount) / 100 if amount > 1000 else float(amount)`. -/
def last_invoice_native_value (amount : Option ℚ) : Option ℚ :=
  match amount with
  | some a => some (if a > 1000 then a / 100 else a)
  | none => none

/-! ## C2 — the `TariffConfig` hour-partition validation
`TariffConfig` and its `__post_init__` validation, tariff/types.py:34-91. -/

/-- The `TariffConfig` dataclass (tariff/types.py:34-68). Hour sets are
kept as the Python lists of ints; optional rates are `Option ℚ`. -/
structure TariffConfig where
  pricing_model : String
  time_structure : String
  fixed_rate : Option ℚ := none
  p1_rate : Option ℚ := none
  p2_rate : Option ℚ := none
  p3_rate : Option ℚ := none
  p1_hours_weekdays : List Nat := [10, 11, 12, 13, 18, 19, 20, 21]
  p2_hours_weekdays : List Nat := [8, 9, 14, 15, 16, 17, 22, 23]
  p3_hours_weekdays : List Nat := [0, 1, 2, 3, 4, 5, 6, 7]
  power_p1_rate : Option ℚ := none
  power_p2_rate : Option ℚ := none
  solar_surplus_rate : Option ℚ := none
  management_fee_monthly : Option ℚ := none
  discount_start_hour : Option Nat := none
  discount_end_hour : Option Nat := none
  discount_percentage : Option ℚ := none
deriving DecidableEq, Repr

/-- Concatenation of the three weekday hour lists, as in
`set(self.p1_hours_weekdays + self.p2_hours_weekdays + self.p3_hours_weekdays)`. -/
def TariffConfig.allHours (c : TariffConfig) : List Nat :=
  c.p1_hours_weekdays ++ c.p2_hours_weekdays ++ c.p3_hours_weekdays

/-- The checks of `TariffConfig.__post_init__` (tariff/types.py:70-91), as
a Boolean: pricing model and time structure must be known, the union of
the three weekday hour lists must equal the set 0..23 (set equality checks
both inclusions), and a configured discount must come with both window
hours in 0..23 and a percentage in 0..1. `True` means the constructor
succeeds; `False` means it raises `ValueError`. -/
def TariffConfig.postInitOk (c : TariffConfig) : Bool :=
  (c.pricing_model == "fixed" || c.pricing_model == "market") &&
  (c.time_structure == "single_rate" || c.time_structure == "time_of_use") &&
  ((List.range 24).all (fun h => c.allHours.contains h) &&
    c.allHours.all (fun h => h < 24)) &&
  (match c.discount_percentage with
   | none => true
   | some p =>
     c.discount_start_hour.isSome && c.discount_end_hour.isSome &&
     (c.discount_start_hour.getD 0 ≤ 23) && (c.discount_end_hour.getD 0 ≤ 23) &&
     decide ((0 : ℚ) ≤ p) && decide (p ≤ 1))

/-- Constructing a `TariffConfig` value: `some` when `__post_init__`
passes, `none` when it raises. -/
def TariffConfig.construct (c : TariffConfig) : Option TariffConfig :=
  if c.postInitOk then some c else none

/-- A configuration whose three hour sets all equal 0..23: the union is
exactly 0..23 but the sets overlap everywhere. -/
def overlapConfig : TariffConfig :=
  { pricing_model := "market"
    time_structure := "time_of_use"
    p1_hours_weekdays := List.range 24
    p2_hours_weekdays := List.range 24
    p3_hours_weekdays := List.range 24 }

/-- A valid market single-rate configuration with the default hour lists. -/
def marketSingleCfg : TariffConfig :=
  { pricing_model := "market"
    time_structure := "single_rate" }

/-- A configuration whose hour lists miss hour 7. -/
def badHoursCfg : TariffConfig :=
  { pricing_model := "market"
    time_structure := "single_rate"
    p3_hours_weekdays := [0, 1, 2, 3, 4, 5, 6] }

/-! ## C6 — market pricing with discount window
`TariffCalculator._calculate_market`, tariff/calculator.py:95-143. -/

/-- One market price record handed to the calculator. `hour` models
`datetime.fromisoformat(start_time).astimezone(Madrid).hour`, the localized
hour of the record's `start_time` string. -/
structure MarketPriceRecord where
  start_time : String
  hour : Nat
  price_per_kwh : ℚ
deriving DecidableEq, Repr

/-- One calculated output record: the input's `start_time` string with the
final per-kWh price. -/
structure CalculatedPriceRecord where
  start_time : String
  price_per_kwh : ℚ
deriving DecidableEq, Repr

/-- Embeds `TariffCalculator._calculate_market` (calculator.py:95-143):
for each record, apply the discount factor `(1 - discount_percentage)`
when all three discount fields are configured and
`discount_start_hour <= hour < discount_end_hour`, then round the price to
6 decimals; the `start_time` string is passed through and ordering is
preserved.  (`target_date` is unused by the market branch.) -/
def calculate_market (c : TariffConfig)
    (market_prices : List MarketPriceRecord) : List CalculatedPriceRecord :=
  market_prices.map (fun pd =>
    let calculated : ℚ :=
      match c.discount_start_hour, c.discount_end_hour, c.discount_percentage with
      | some s, some e, some d =>
        if s ≤ pd.hour ∧ pd.hour < e then pd.price_per_kwh * (1 - d)
        else pd.price_per_kwh
      | _, _, _ => pd.price_per_kwh
    { start_time := pd.start_time, price_per_kwh := pyRound 6 calculated })

/-- The market config of the C6 example: discount window 12–18 at 45%. -/
def sunClubCfg : TariffConfig :=
  { pricing_model := "market"
    time_structure := "single_rate"
    discount_start_hour := some 12
    discount_end_hour := some 18
    discount_percentage := some 0.45 }

/-! ## C7 — contracted-power (potencia) daily cost
`TariffCalculator.calculate_power_cost`, tariff/calculator.py:196-254. -/

/-- The hour-counting loop of `calculate_power_cost`
(calculator.py:222-243): hours 0..23 are sorted into (Punta, Valle)
buckets — on a weekend every hour is Valle, on a weekday an hour is Punta
iff it occurs in `p1_hours_weekdays`, Valle otherwise. -/
def power_period_hours (c : TariffConfig) (target_date : Date) : Nat × Nat :=
  (List.range 24).foldl (fun ac hour =>
    if isWeekdayDate target_date = false then (ac.1, ac.2 + 1)
    else if c.p1_hours_weekdays.contains hour then (ac.1 + 1, ac.2)
    else (ac.1, ac.2 + 1)) (0, 0)

/-- Result of `calculate_power_cost`, in €/day. -/
structure PowerCostResult where
  p1_cost : ℚ
  p2_cost : ℚ
  total_cost : ℚ
deriving DecidableEq, Repr

/-- Embeds `TariffCalculator.calculate_power_cost`
(calculator.py:196-254): with both power rates configured, each period
cost is `power_kw * rate * hours_in_period / 24` rounded to 6 decimals;
without them the result is all zeros (after a warning). -/
def calculate_power_cost (c : TariffConfig) (power_kw : ℚ)
    (target_date : Date) : PowerCostResult :=
  match c.power_p1_rate, c.power_p2_rate with
  | some r1, some r2 =>
    let ph := power_period_hours c target_date
    let p1_cost := power_kw * r1 * (ph.1 : ℚ) / 24
    let p2_cost := power_kw * r2 * (ph.2 : ℚ) / 24
    { p1_cost := pyRound 6 p1_cost
      p2_cost := pyRound 6 p2_cost
      total_cost := pyRound 6 (p1_cost + p2_cost) }
  | _, _ => { p1_cost := 0, p2_cost := 0, total_cost := 0 }

/-- A fixed time-of-use config with both power rates set, for the C7
witness. -/
def powerCfg : TariffConfig :=
  { pricing_model := "fixed"
    time_structure := "time_of_use"
    power_p1_rate := some 0.1
    power_p2_rate := some 0.05 }

/-! ## C4 / C3 — next billing period derivation and elapsed/remaining days
`OctopusEnergyESNextInvoiceEstimatedSensor.native_value`,
sensor.py:1510-1545. -/

/-- A calendar-valid date (what Python's `datetime.date` always is). -/
def Date.Valid (d : Date) : Prop :=
  1 ≤ d.month ∧ d.month ≤ 12 ∧ 1 ≤ d.day ∧ d.day ≤ daysInMonth d.year d.month

instance (d : Date) : Decidable d.Valid := by
  unfold Date.Valid; infer_instance

/-- Duration in days of the last invoice period:
`(last_end - last_start).days + 1` (sensor.py:1511). -/
def invoice_period_duration (last_start last_end : Date) : ℤ :=
  (rataDie last_end : ℤ) - (rataDie last_start : ℤ) + 1

/-- The last day of month `m` of year `y`, as computed at
sensor.py:1517-1521 (`date(y+1,1,1) - 1 day` for December,
`date(y,m+1,1) - 1 day` otherwise). -/
def monthLastDay (y m : Nat) : Date :=
  if m = 12 then ⟨y, 12, 31⟩ else ⟨y, m, daysInMonth y m⟩

/-- The unclamped candidate end of the next period:
`next_start + timedelta(days = period_duration - 1)` (sensor.py:1513). -/
def naiveNextEnd (last_start last_end : Date) : Date :=
  addDays (addDays last_end 1) (invoice_period_duration last_start last_end - 1).toNat

/-- Embeds the next-billing-period derivation (sensor.py:1510-1522):
`next_start = last_end + 1 day`, `next_end = next_start +
(period_duration - 1) days`, clamped to the last day of `next_start`'s
month when the *month numbers* of `next_end` and `next_start` differ. -/
def nextInvoicePeriod (last_start last_end : Date) : Date × Date :=
  let next_start := addDays last_end 1
  let next_end := naiveNextEnd last_start last_end
  let next_end2 :=
    if next_end.month ≠ next_start.month
    then monthLastDay next_start.year next_start.month
    else next_end
  (next_start, next_end2)

/-- Embeds sensor.py:1527-1545: `None` before the period starts, full
`period_duration` elapsed and 0 remaining after it ends, otherwise
`(today - next_start).days + 1` elapsed and `(next_end - today).days`
remaining. -/
def next_invoice_days (last_start last_end today : Date) : Option (ℤ × ℤ) :=
  let ns := (nextInvoicePeriod last_start last_end).1
  let ne := (nextInvoicePeriod last_start last_end).2
  if rataDie today < rataDie ns then none
  else if rataDie ne < rataDie today then
    some (invoice_period_duration last_start last_end, 0)
  else
    some ((rataDie today : ℤ) - (rataDie ns : ℤ) + 1,
          (rataDie ne : ℤ) - (rataDie today : ℤ))

/-! ## C8 — credit merge / deduplication
`OctopusEnergyESCoordinator._merge_credits_data`, coordinator.py:373-420. -/

/-- A loyalty-credit record; only the fields the merge consults plus the
integer cent amount (which distinguishes record versions). -/
structure CreditRecord where
  id : Option String
  createdAt : Option String
  amount : ℤ
deriving DecidableEq, Repr

/-- Python truthiness of an optional string: `None` and `""` are falsy. -/
def pyStrTruthy : Option String → Option String
  | some s => if s = "" then none else some s
  | none => none

/-- The deduplication key chosen at coordinator.py:398-405 / 410-417:
the record's truthy `id`, else its truthy `createdAt`, else no key (the
record is dropped). -/
def creditKey (c : CreditRecord) : Option String :=
  match pyStrTruthy c.id with
  | some i => some i
  | none => pyStrTruthy c.createdAt

/-- Python `dict` assignment `d[k] = v` on an insertion-ordered
association list: update in place when the key exists, append otherwise. -/
def insertKV (l : List (String × CreditRecord)) (k : String) (v : CreditRecord) :
    List (String × CreditRecord) :=
  if k ∈ l.map Prod.fst then l.map (fun p => if p.1 = k then (k, v) else p)
  else l ++ [(k, v)]

/-- One loop iteration of the merge: insert a credit under its key, or
skip it when it has none. -/
def insertCredit (l : List (String × CreditRecord)) (c : CreditRecord) :
    List (String × CreditRecord) :=
  match creditKey c with
  | some k => insertKV l k c
  | none => l

/-- Embeds `_merge_credits_data` (coordinator.py:386-420), restricted to
the merged `credits` list it returns: when `historical_credits` is empty
the recent structure is returned unchanged; otherwise historical credits
are inserted into an empty dict first, then recent credits (overwriting on
key collision), and the dict's values are returned. -/
def merge_credits_data (recent historical : List CreditRecord) :
    List CreditRecord :=
  if historical.isEmpty then recent
  else (recent.foldl insertCredit (historical.foldl insertCredit [])).map Prod.snd

/-- Two distinct versions of a credit sharing the id `"a"`. -/
def dupCreditA : CreditRecord := ⟨some "a", none, 100⟩

/-- Second version of the `"a"` credit. -/
def dupCreditB : CreditRecord := ⟨some "a", none, 200⟩

/-- Historical credit list for the C8 witness: a colliding version of
`"a"` and a key `"h"` only present historically. -/
def witHistCredits : List CreditRecord :=
  [⟨some "a", none, 50⟩, ⟨some "h", none, 1⟩]

/-- Recent credit list for the C8 witness: the newer version of `"a"`. -/
def witRecentCredits : List CreditRecord :=
  [⟨some "a", none, 75⟩]

/-! ## C9 / C5 — consumption aggregation and reporting-period selection
`_parse_datetime_to_madrid`, `_group_consumption_by_date`,
`_group_consumption_by_month` (sensor.py:40-153) and the selection logic
of the daily and monthly consumption sensors (sensor.py:654-688,
803-835). The stdlib ISO parse plus Madrid localization is the function
argument `parse`; the claims quantify over all record sets, so they are
stated for every `parse`. -/

/-- One raw consumption item (a Python dict): the timestamp may live in
`start_time` or `date`, the kWh value in `consumption` or `value`. -/
structure ConsumptionItem where
  start_time : Option String
  date : Option String
  consumption : Option ℚ
  value : Option ℚ

/-- `item.get("start_time") or item.get("date")` (Python falsy chain). -/
def itemTimeStr (it : ConsumptionItem) : Option String :=
  match pyStrTruthy it.start_time with
  | some s => some s
  | none => pyStrTruthy it.date

/-- `float(item.get("consumption", item.get("value", 0)))`. -/
def itemConsumption (it : ConsumptionItem) : ℚ :=
  it.consumption.getD (it.value.getD 0)

/-- Python `totals[k] = totals.get(k, 0) + q` on an insertion-ordered
dict: bump the existing entry in place, else append `(k, q)`. -/
def bumpTotal {κ : Type} [DecidableEq κ] :
    List (κ × ℚ) → κ → ℚ → List (κ × ℚ)
  | [], k, q => [(k, q)]
  | p :: rest, k, q =>
    if p.1 = k then (p.1, p.2 + q) :: rest else p :: bumpTotal rest k q

/-- The shared shape of `_group_consumption_by_date` / `_by_month`
(sensor.py:63-153): walk the items, skip any without a usable parsed
timestamp, and accumulate `itemConsumption` under `key` of the parsed
date. -/
def group_consumption_by {κ : Type} [DecidableEq κ] (key : Date → κ)
    (parse : String → Option Date) (items : List ConsumptionItem) :
    List (κ × ℚ) :=
  items.foldl (fun acc it =>
    match itemTimeStr it with
    | none => acc
    | some s =>
      match parse s with
      | none => acc
      | some dt => bumpTotal acc (key dt) (itemConsumption it)) []

/-- `_group_consumption_by_date` keyed by the localized date. -/
def group_consumption_by_date (parse : String → Option Date)
    (items : List ConsumptionItem) : List (Date × ℚ) :=
  group_consumption_by (fun d => d) parse items

/-- `_group_consumption_by_month` keyed by `(year, month)`. -/
def group_consumption_by_month (parse : String → Option Date)
    (items : List ConsumptionItem) : List ((Nat × Nat) × ℚ) :=
  group_consumption_by (fun d => (d.year, d.month)) parse items

/-- Python `totals.get(k, 0)` / `totals[k]`. -/
def valTotal {κ : Type} [DecidableEq κ] (acc : List (κ × ℚ)) (k : κ) : ℚ :=
  ((acc.find? (fun p => decide (p.1 = k))).map Prod.snd).getD 0

/-- Insert into a descending-sorted list (used to model Python's
`list.sort(reverse=True)`). -/
def insertDescBy {α : Type} (le : α → α → Bool) (x : α) : List α → List α
  | [] => [x]
  | y :: ys => if le y x then x :: y :: ys else y :: insertDescBy le x ys

/-- Sort a list descending under `le` (`list.sort(reverse=True)`). -/
def sortDescBy {α : Type} (le : α → α → Bool) (l : List α) : List α :=
  l.foldr (insertDescBy le) []

/-- Python `date` comparison (by ordinal). -/
def dateLeB (a b : Date) : Bool :=
  decide (rataDie a ≤ rataDie b)

/-- Python tuple comparison on `(year, month)` keys (lexicographic). -/
def monthKeyLeB (a b : Nat × Nat) : Bool :=
  decide (a.1 < b.1 ∨ (a.1 = b.1 ∧ a.2 ≤ b.2))

/-- The contribution a single item makes to the aggregation: its bucket
key and kWh value, or nothing when its timestamp is missing/unparseable. -/
def itemContrib {κ : Type} [DecidableEq κ] (key : Date → κ)
    (parse : String → Option Date) (it : ConsumptionItem) : Option (κ × ℚ) :=
  ((itemTimeStr it).bind parse).map (fun dt => (key dt, itemConsumption it))

/-- Sum of the contributions carrying key `k`. -/
def keyContribSum {κ : Type} [DecidableEq κ] (ps : List (κ × ℚ)) (k : κ) : ℚ :=
  ((ps.filter (fun p => decide (p.1 = k))).map Prod.snd).sum

/-- Embeds the selection core of
`OctopusEnergyESDailyConsumptionSensor.native_value` (sensor.py:654-688):
the returned triple is (selected bucket date, rounded total, `is_today`);
the hourly-breakdown attribute computation is omitted (it does not affect
the selection). -/
def daily_consumption_native (parse : String → Option Date)
    (consumption : List ConsumptionItem) (today : Date) :
    Option (Date × ℚ × Bool) :=
  if consumption.isEmpty then none
  else if (group_consumption_by_date parse consumption).isEmpty then none
  else
    match (if today ∈ (group_consumption_by_date parse consumption).map Prod.fst
           then some today
           else (sortDescBy dateLeB
             ((group_consumption_by_date parse consumption).map Prod.fst)).head?) with
    | some target =>
      some (target,
        pyRound 3 (valTotal (group_consumption_by_date parse consumption) target),
        decide (target = today))
    | none => none

/-- The cumulative current-month total of
`OctopusEnergyESMonthlyConsumptionSensor.native_value`
(sensor.py:781-801): sum the daily totals of the current month's days 1
up to today. -/
def month_so_far_total (daily : List (Date × ℚ)) (now : Date) : ℚ :=
  (List.range now.day).foldl (fun acc i =>
    if rataDie (addDays ⟨now.year, now.month, 1⟩ i) ≤ rataDie now ∧
       addDays ⟨now.year, now.month, 1⟩ i ∈ daily.map Prod.fst
    then acc + valTotal daily (addDays ⟨now.year, now.month, 1⟩ i)
    else acc) 0

/-- The fallback full-month total (sensor.py:804-829): sum the daily
totals over every day of the given `(year, month)`. -/
def month_full_total (daily : List (Date × ℚ)) (ym : Nat × Nat) : ℚ :=
  (List.range (rataDie (monthLastDay ym.1 ym.2) - rataDie ⟨ym.1, ym.2, 1⟩ + 1)).foldl
    (fun acc i =>
      if addDays ⟨ym.1, ym.2, 1⟩ i ∈ daily.map Prod.fst
      then acc + valTotal daily (addDays ⟨ym.1, ym.2, 1⟩ i)
      else acc) 0

/-- Embeds the selection core of
`OctopusEnergyESMonthlyConsumptionSensor.native_value`
(sensor.py:730-845) on a first run (the weekly caching layer and the
weekly-breakdown attributes are omitted): the returned triple is
(selected `(year, month)`, rounded total, `is_current_month`). The
fallback to the most recent month triggers when the month-so-far total is
0.0 (and some month bucket exists). -/
def monthly_consumption_native (parse : String → Option Date)
    (consumption : List ConsumptionItem) (now : Date) :
    Option ((Nat × Nat) × ℚ × Bool) :=
  if consumption.isEmpty then none
  else if (group_consumption_by_date parse consumption).isEmpty then none
  else if month_so_far_total (group_consumption_by_date parse consumption) now = 0 ∧
      ¬(sortDescBy monthKeyLeB
         ((group_consumption_by_month parse consumption).map Prod.fst)).isEmpty then
    match (sortDescBy monthKeyLeB
        ((group_consumption_by_month parse consumption).map Prod.fst)).head? with
    | some mr =>
      some (mr,
        pyRound 3 (month_full_total (group_consumption_by_date parse consumption) mr),
        false)
    | none => none
  else
    some ((now.year, now.month),
      pyRound 3 (month_so_far_total (group_consumption_by_date parse consumption) now),
      true)

/-- Parse function for the C5 counterexample: one timestamp string mapping
into June 2025. -/
def cexParse : String → Option Date :=
  fun s => if s = "z" then some ⟨2025, 6, 5⟩ else none

/-- A single consumption record in the current month whose value is 0 kWh. -/
def cexItems : List ConsumptionItem :=
  [⟨some "z", none, some 0, none⟩]

/-- Parse function for the C5 witness. -/
def witParse : String → Option Date := fun s =>
  if s = "2025-06-05T10:00:00Z" then some ⟨2025, 6, 5⟩
  else if s = "2025-06-04T10:00:00Z" then some ⟨2025, 6, 4⟩
  else none

/-- Consumption records for the C5 witness: 2 kWh today, 3 kWh yesterday. -/
def witConsumption : List ConsumptionItem :=
  [⟨some "2025-06-05T10:00:00Z", none, some 2, none⟩,
   ⟨some "2025-06-04T10:00:00Z", none, some 3, none⟩]

/-- Day addition composes. -/
theorem addDays_add (d : Date) (a b : Nat) :
    addDays d (a + b) = addDays (addDays d a) b := by
  induction a generalizing d with
  | zero =>
    rw [Nat.zero_add]
    rfl
  | succ k ih =>
    have : k + 1 + b = (k + b) + 1 := by omega
    rw [this]
    show addDays (succDay d) (k + b) = addDays (addDays (succDay d) k) b
    exact ih (succDay d)

/-- C1: the daily cost breakdown satisfies `base = energy_cost +
(power_cost or 0) + (management_fee_daily or 0)`, `electricity_tax = base *
electricity_tax_rate`, `vat = (base + electricity_tax) * vat_rate` and
`total = base + electricity_tax + vat`; in particular `base = 100` with
`electricity_tax_rate = 0.0511` and `vat_rate = 0.21` yields
`electricity_tax = 5.11`, `vat = 22.0731`, `total = 127.1831`, which rounds
to 2 decimals as `127.18`. -/
theorem calculate_daily_cost_contract (e : ℚ) (p m : Option ℚ) (tr vr : ℚ) :
    ((calculate_daily_cost e p m tr vr).base = e + p.getD 0 + m.getD 0 ∧
     (calculate_daily_cost e p m tr vr).electricity_tax =
       (calculate_daily_cost e p m tr vr).base * tr ∧
     (calculate_daily_cost e p m tr vr).vat =
       ((calculate_daily_cost e p m tr vr).base +
        (calculate_daily_cost e p m tr vr).electricity_tax) * vr ∧
     (calculate_daily_cost e p m tr vr).total =
       (calculate_daily_cost e p m tr vr).base +
       (calculate_daily_cost e p m tr vr).electricity_tax +
       (calculate_daily_cost e p m tr vr).vat) ∧
    ((calculate_daily_cost 100 none none 0.0511 0.21).base = 100 ∧
     (calculate_daily_cost 100 none none 0.0511 0.21).electricity_tax = 5.11 ∧
     (calculate_daily_cost 100 none none 0.0511 0.21).vat = 22.0731 ∧
     (calculate_daily_cost 100 none none 0.0511 0.21).total = 127.1831 ∧
     pyRound 2 (calculate_daily_cost 100 none none 0.0511 0.21).total = 127.18) := by
  refine ⟨⟨rfl, rfl, rfl, rfl⟩, ?_, ?_, ?_, ?_, ?_⟩ <;>
    norm_num [calculate_daily_cost, pyRound]

/-- C10: the last-invoice sensor applies a unit-guessing heuristic: an
amount `a` is reported as `a / 100` when `a > 1000` and unchanged when
`a ≤ 1000`; exactly `1000` is reported as `1000`, and a genuine euro amount
above `1000` (such as `1500.5`) is silently divided by `100`. -/
theorem last_invoice_unit_heuristic (a : ℚ) :
    (1000 < a → last_invoice_native_value (some a) = some (a / 100)) ∧
    (a ≤ 1000 → last_invoice_native_value (some a) = some a) ∧
    last_invoice_native_value (some 1000) = some 1000 ∧
    last_invoice_native_value (some 1500.5) = some 15.005 := by
  refine ⟨fun h => ?_, fun h => ?_, ?_, ?_⟩ <;>
    simp [last_invoice_native_value] <;> first
    | intro h2; norm_num at h h2 ⊢; linarith
    | norm_num

/-- Witness for C10 at the concrete amounts 1500.5 (above the threshold)
and 500 (below it). -/
theorem last_invoice_unit_heuristic_w :
    (1000 < (1500.5 : ℚ) ∧
      last_invoice_native_value (some 1500.5) = some (1500.5 / 100)) ∧
    ((500 : ℚ) ≤ 1000 ∧ last_invoice_native_value (some 500) = some 500) :=
  ⟨⟨by norm_num, (last_invoice_unit_heuristic 1500.5).1 (by norm_num)⟩,
   ⟨by norm_num, (last_invoice_unit_heuristic 500).2.1 (by norm_num)⟩⟩

/-- Helper: a passing `__post_init__` implies the union of the three
weekday hour lists is exactly 0..23. -/
theorem postInitOk_union (c : TariffConfig) (hb : c.postInitOk = true) :
    (∀ h < 24, h ∈ c.allHours) ∧ (∀ h ∈ c.allHours, h < 24) := by
  simp only [TariffConfig.postInitOk, Bool.and_eq_true, List.all_eq_true] at hb
  obtain ⟨⟨⟨-, -⟩, h1, h2⟩, -⟩ := hb
  refine ⟨fun h hh => ?_, fun h hh => ?_⟩
  · simpa using h1 h (by simpa using hh)
  · simpa using h2 h hh

/-- C2 (counterexample): a config whose three hour sets all equal 0..23
overlaps everywhere, yet `__post_init__` accepts it — construction does
not fail, refuting the claim that overlapping sets fail at construction. -/
theorem tariff_partition_cex :
    TariffConfig.construct overlapConfig = some overlapConfig ∧
    0 ∈ overlapConfig.p1_hours_weekdays ∧
    0 ∈ overlapConfig.p2_hours_weekdays := by
  refine ⟨?_, by decide, by decide⟩
  have : overlapConfig.postInitOk = true := by decide
  simp [TariffConfig.construct, this]

/-- C2 (amended): construction fails only on union defects, not overlaps —
every successfully constructed `TariffConfig` has weekday hour sets whose
union is exactly 0..23 (and is returned unchanged), and any config whose
union differs from 0..23 fails at construction; pairwise disjointness is
not validated. -/
theorem tariff_hours_validation (c : TariffConfig) :
    (∀ c', TariffConfig.construct c = some c' →
       c' = c ∧ (∀ h < 24, h ∈ c.allHours) ∧ (∀ h ∈ c.allHours, h < 24)) ∧
    ((¬ ((∀ h < 24, h ∈ c.allHours) ∧ (∀ h ∈ c.allHours, h < 24))) →
       TariffConfig.construct c = none) := by
  constructor
  · intro c' hc
    by_cases hb : c.postInitOk
    · refine ⟨?_, postInitOk_union c hb⟩
      simpa [TariffConfig.construct, hb] using hc.symm
    · simp [TariffConfig.construct, hb] at hc
  · intro hnot
    by_cases hb : c.postInitOk
    · exact absurd (postInitOk_union c hb) hnot
    · simp [TariffConfig.construct, hb]

/-- Witness for C2's amended theorem: a default-hours market config is
constructed and covers 0..23; a config missing hour 7 is rejected. -/
theorem tariff_hours_validation_w :
    (TariffConfig.construct marketSingleCfg = some marketSingleCfg ∧
     marketSingleCfg = marketSingleCfg ∧
     (∀ h < 24, h ∈ marketSingleCfg.allHours) ∧
     (∀ h ∈ marketSingleCfg.allHours, h < 24)) ∧
    TariffConfig.construct badHoursCfg = none := by
  constructor
  · have hgood : TariffConfig.construct marketSingleCfg = some marketSingleCfg := by
      have : marketSingleCfg.postInitOk = true := by decide
      simp [TariffConfig.construct, this]
    exact ⟨hgood, (tariff_hours_validation marketSingleCfg).1 _ hgood⟩
  · exact (tariff_hours_validation badHoursCfg).2 (by decide)

/-- C6: in market mode with a configured discount window, each record's
price is multiplied by `(1 - discount_percentage)` exactly when
`discount_start_hour ≤ hour < discount_end_hour` and left unchanged
otherwise, rounded to 6 decimals, preserving order and `start_time`. -/
theorem market_discount_window (c : TariffConfig) (s e : Nat) (d : ℚ)
    (hs : c.discount_start_hour = some s) (he : c.discount_end_hour = some e)
    (hd : c.discount_percentage = some d) (ps : List MarketPriceRecord) :
    calculate_market c ps =
      ps.map (fun pd =>
        { start_time := pd.start_time
          price_per_kwh :=
            pyRound 6 (if s ≤ pd.hour ∧ pd.hour < e
                       then pd.price_per_kwh * (1 - d)
                       else pd.price_per_kwh) }) := by
  simp [calculate_market, hs, he, hd]

/-- Witness for C6 at the claim's example: with window 12–18 and 45%
discount, a price of 0.20 at hour 14 yields 0.11 and at hour 20 stays
0.20. -/
theorem market_discount_window_w :
    sunClubCfg.discount_start_hour = some 12 ∧
    sunClubCfg.discount_end_hour = some 18 ∧
    sunClubCfg.discount_percentage = some 0.45 ∧
    calculate_market sunClubCfg
        [⟨"2025-06-02T14:00:00+02:00", 14, 0.20⟩,
         ⟨"2025-06-02T20:00:00+02:00", 20, 0.20⟩] =
      [⟨"2025-06-02T14:00:00+02:00", 0.11⟩,
       ⟨"2025-06-02T20:00:00+02:00", 0.20⟩] := by
  refine ⟨rfl, rfl, rfl, ?_⟩
  rw [market_discount_window sunClubCfg 12 18 0.45 rfl rfl rfl]
  norm_num [pyRound]

/-- Counting helper: folding the two-bucket counter over a list equals
filtering. -/
theorem foldl_count_pair (p : Nat → Bool) :
    ∀ (l : List Nat) (a b : Nat),
      l.foldl (fun ac h => if p h then (ac.1 + 1, ac.2) else (ac.1, ac.2 + 1))
          (a, b) =
        (a + (l.filter p).length, b + (l.filter (fun h => !(p h))).length) := by
  intro l
  induction l with
  | nil => simp
  | cons x xs ih =>
    intro a b
    by_cases hx : p x <;> simp [hx, ih, Nat.add_assoc, Nat.add_comm 1]

/-- The two power-period hour counts. -/
theorem power_period_hours_eq (c : TariffConfig) (d : Date) :
    power_period_hours c d =
      (if isWeekdayDate d
        then (((List.range 24).filter
                 (fun h => c.p1_hours_weekdays.contains h)).length,
              ((List.range 24).filter
                 (fun h => !(c.p1_hours_weekdays.contains h))).length)
        else (0, 24)) := by
  unfold power_period_hours
  by_cases hw : isWeekdayDate d
  · simp only [hw, if_true]
    have := foldl_count_pair (fun h => c.p1_hours_weekdays.contains h)
      (List.range 24) 0 0
    simpa using this
  · simp only [Bool.not_eq_true] at hw
    simp only [hw, if_false]
    have := foldl_count_pair (fun _ : Nat => false) (List.range 24) 0 0
    simpa [hw] using this

/-- pyRound of zero is zero. -/
theorem pyRound_zero (p : Nat) : pyRound p 0 = 0 := by
  norm_num [pyRound]

/-- C7: with both power rates configured, the power cost for `power_kw` on
`target_date` is `p1_cost = power_kw * power_p1_rate * p1_hours / 24` and
`p2_cost = power_kw * power_p2_rate * p2_hours / 24` (each rounded to 6
decimals as everywhere in the calculator, the total rounded from the
unrounded sum), where on a weekday `p1_hours` counts the hours 0..23 lying
in `p1_hours_weekdays` and every other hour is Valle, on a weekend all 24
hours are Valle; consequently `p1_hours + p2_hours = 24` on every date and
`p1_cost = 0` on weekends. -/
theorem power_cost_contract (c : TariffConfig) (r1 r2 kw : ℚ) (d : Date)
    (h1 : c.power_p1_rate = some r1) (h2 : c.power_p2_rate = some r2) :
    (calculate_power_cost c kw d).p1_cost =
      pyRound 6 (kw * r1 * ((power_period_hours c d).1 : ℚ) / 24) ∧
    (calculate_power_cost c kw d).p2_cost =
      pyRound 6 (kw * r2 * ((power_period_hours c d).2 : ℚ) / 24) ∧
    (calculate_power_cost c kw d).total_cost =
      pyRound 6 (kw * r1 * ((power_period_hours c d).1 : ℚ) / 24 +
                 kw * r2 * ((power_period_hours c d).2 : ℚ) / 24) ∧
    (isWeekdayDate d = true →
      (power_period_hours c d).1 =
        ((List.range 24).filter (fun h => c.p1_hours_weekdays.contains h)).length) ∧
    (isWeekdayDate d = false →
      (power_period_hours c d).1 = 0 ∧ (calculate_power_cost c kw d).p1_cost = 0) ∧
    (power_period_hours c d).1 + (power_period_hours c d).2 = 24 := by
  refine ⟨?_, ?_, ?_, ?_, ?_, ?_⟩
  · simp [calculate_power_cost, h1, h2]
  · simp [calculate_power_cost, h1, h2]
  · simp [calculate_power_cost, h1, h2]
  · intro hw
    simp [power_period_hours_eq, hw]
  · intro hw
    constructor
    · simp [power_period_hours_eq, hw]
    · simp [calculate_power_cost, h1, h2, power_period_hours_eq, hw, pyRound_zero]
  · rw [power_period_hours_eq]
    by_cases hw : isWeekdayDate d
    · simp only [hw, if_true]
      have := (List.range 24).length_eq_length_filter_add
        (fun h => c.p1_hours_weekdays.contains h)
      simpa using this.symm
    · simp [hw]

/-- Witness for C7: on Monday 2025-06-02 the default 8 Punta hours give
`p1_cost = pyRound 6 (1 * 0.1 * 8 / 24)`; on Sunday 2025-06-01 every hour
is Valle and `p1_cost = 0`. -/
theorem power_cost_contract_w :
    (powerCfg.power_p1_rate = some 0.1 ∧ powerCfg.power_p2_rate = some 0.05) ∧
    (calculate_power_cost powerCfg 1 ⟨2025, 6, 2⟩).p1_cost =
      pyRound 6 (1 * 0.1 * ((power_period_hours powerCfg ⟨2025, 6, 2⟩).1 : ℚ) / 24) ∧
    (power_period_hours powerCfg ⟨2025, 6, 2⟩).1 +
      (power_period_hours powerCfg ⟨2025, 6, 2⟩).2 = 24 ∧
    (isWeekdayDate (⟨2025, 6, 1⟩ : Date) = false ∧
      (calculate_power_cost powerCfg 1 ⟨2025, 6, 1⟩).p1_cost = 0) := by
  have hmon := power_cost_contract powerCfg 0.1 0.05 1 ⟨2025, 6, 2⟩ rfl rfl
  have hsun := power_cost_contract powerCfg 0.1 0.05 1 ⟨2025, 6, 1⟩ rfl rfl
  exact ⟨⟨rfl, rfl⟩, hmon.1, hmon.2.2.2.2.2,
    ⟨by decide, (hsun.2.2.2.2.1 (by decide)).2⟩⟩

/-- Every month has at least 28 days. -/
theorem daysInMonth_pos (y m : Nat) : 1 ≤ daysInMonth y m := by
  unfold daysInMonth
  split <;> first | split_ifs <;> omega | omega

/-- The successor day of a valid date is valid. -/
theorem valid_succDay (d : Date) (hv : d.Valid) : (succDay d).Valid := by
  obtain ⟨h1, h2, h3, h4⟩ := hv
  unfold succDay Date.Valid
  split_ifs with ha hb
  · refine ⟨h1, h2, ?_, ?_⟩
    · show 1 ≤ d.day + 1
      omega
    · show d.day + 1 ≤ daysInMonth d.year d.month
      omega
  · refine ⟨?_, ?_, le_refl 1, ?_⟩
    · show 1 ≤ d.month + 1
      omega
    · show d.month + 1 ≤ 12
      omega
    · show 1 ≤ daysInMonth d.year (d.month + 1)
      exact daysInMonth_pos _ _
  · refine ⟨le_refl 1, ?_, le_refl 1, ?_⟩
    · show (1 : Nat) ≤ 12
      omega
    · show 1 ≤ daysInMonth (d.year + 1) 1
      exact daysInMonth_pos _ _

/-- One day forward moves the linear month index by 0 or 1 (for valid
dates). -/
theorem monthLin_succDay (d : Date) (hv : d.Valid) :
    monthLin d ≤ monthLin (succDay d) ∧ monthLin (succDay d) ≤ monthLin d + 1 := by
  obtain ⟨h1, h2, h3, h4⟩ := hv
  unfold succDay monthLin
  split_ifs with ha hb <;> simp <;> omega

/-- Day addition preserves validity and never decreases the linear month
index. -/
theorem addDays_valid_monthLin (d : Date) (hv : d.Valid) (n : Nat) :
    (addDays d n).Valid ∧ monthLin d ≤ monthLin (addDays d n) := by
  induction n generalizing d with
  | zero => exact ⟨hv, le_refl _⟩
  | succ k ih =>
    have hs := valid_succDay d hv
    have h := ih (succDay d) hs
    exact ⟨h.1, le_trans (monthLin_succDay d hv).1 h.2⟩

/-- C4 (counterexample): a 367-day invoice period starting 2024-01-01
derives `next_start = 2025-01-02` and a naive end of 2026-01-03, which
crosses into (many) following calendar months yet is *not* clamped,
because the code only compares month numbers (1 = 1). -/
theorem addDays_year_step :
    addDays (⟨2025, 1, 2⟩ : Date) 366 = ⟨2026, 1, 3⟩ := by
  have h1 : addDays (⟨2025, 1, 2⟩ : Date) 100 = ⟨2025, 4, 12⟩ := by decide
  have h2 : addDays (⟨2025, 4, 12⟩ : Date) 100 = ⟨2025, 7, 21⟩ := by decide
  have h3 : addDays (⟨2025, 7, 21⟩ : Date) 100 = ⟨2025, 10, 29⟩ := by decide
  have h4 : addDays (⟨2025, 10, 29⟩ : Date) 66 = ⟨2026, 1, 3⟩ := by decide
  have e : (366 : Nat) = 100 + 100 + 100 + 66 := by omega
  rw [e, addDays_add, addDays_add, addDays_add, h1, h2, h3, h4]

theorem next_invoice_period_cex :
    nextInvoicePeriod ⟨2024, 1, 1⟩ ⟨2025, 1, 1⟩ = (⟨2025, 1, 2⟩, ⟨2026, 1, 3⟩) ∧
    ((2026 : Nat), (1 : Nat)) ≠ ((2025 : Nat), (1 : Nat)) ∧
    (⟨2026, 1, 3⟩ : Date) ≠ monthLastDay 2025 1 := by
  have hnaive : naiveNextEnd ⟨2024, 1, 1⟩ ⟨2025, 1, 1⟩ = ⟨2026, 1, 3⟩ := by
    unfold naiveNextEnd
    have h0 : addDays (⟨2025, 1, 1⟩ : Date) 1 = ⟨2025, 1, 2⟩ := by decide
    have hd : (invoice_period_duration ⟨2024, 1, 1⟩ ⟨2025, 1, 1⟩ - 1).toNat = 366 := by
      decide
    rw [show addDays (⟨2025, 1, 1⟩ : Date) 1 = ⟨2025, 1, 2⟩ from h0, hd]
    exact addDays_year_step
  have h0 : addDays (⟨2025, 1, 1⟩ : Date) 1 = ⟨2025, 1, 2⟩ := by decide
  refine ⟨?_, by decide, by decide⟩
  simp only [nextInvoicePeriod, hnaive, h0]
  decide

/-- C4 (amended): `next_start = last_end + 1 day` and, provided the naive
end lands less than 12 calendar months after `next_start`, the period end
is the naive `next_start + duration - 1 day` when it stays in
`next_start`'s calendar month and is clamped to that month's last day when
the naive addition crosses into a following month; in particular the last
invoice 2025-01-01..2025-01-31 derives 2025-02-01..2025-02-28 (witness).
(With a naive end 12+ months out the month-number test can miss the
crossing — see the counterexample.) -/
theorem next_invoice_period_amended (ls le : Date) (hvle : le.Valid)
    (hspan : monthLin (naiveNextEnd ls le) < monthLin (addDays le 1) + 12) :
    (nextInvoicePeriod ls le).1 = addDays le 1 ∧
    (nextInvoicePeriod ls le).2 =
      (if (naiveNextEnd ls le).year = (addDays le 1).year ∧
          (naiveNextEnd ls le).month = (addDays le 1).month
       then naiveNextEnd ls le
       else monthLastDay (addDays le 1).year (addDays le 1).month) := by
  have hns : (addDays le 1).Valid := (addDays_valid_monthLin le hvle 1).1
  have hmono : monthLin (addDays le 1) ≤ monthLin (naiveNextEnd ls le) :=
    (addDays_valid_monthLin (addDays le 1) hns
      (invoice_period_duration ls le - 1).toNat).2
  refine ⟨rfl, ?_⟩
  show (if (naiveNextEnd ls le).month ≠ (addDays le 1).month
        then monthLastDay (addDays le 1).year (addDays le 1).month
        else naiveNextEnd ls le) = _
  by_cases hm : (naiveNextEnd ls le).month = (addDays le 1).month
  · have hy : (naiveNextEnd ls le).year = (addDays le 1).year := by
      unfold monthLin at hspan hmono
      omega
    simp [hm, hy]
  · have hpair : ¬((naiveNextEnd ls le).year = (addDays le 1).year ∧
        (naiveNextEnd ls le).month = (addDays le 1).month) := fun hc => hm hc.2
    simp [hm, hpair]

/-- Witness for C4's amended theorem at the claim's example:
2025-01-01..2025-01-31 (31 days) derives 2025-02-01..2025-02-28. -/
theorem next_invoice_period_amended_w :
    Date.Valid ⟨2025, 1, 31⟩ ∧
    monthLin (naiveNextEnd ⟨2025, 1, 1⟩ ⟨2025, 1, 31⟩) <
      monthLin (addDays ⟨2025, 1, 31⟩ 1) + 12 ∧
    (nextInvoicePeriod ⟨2025, 1, 1⟩ ⟨2025, 1, 31⟩).1 = ⟨2025, 2, 1⟩ ∧
    (nextInvoicePeriod ⟨2025, 1, 1⟩ ⟨2025, 1, 31⟩).2 = ⟨2025, 2, 28⟩ := by
  have hv : Date.Valid ⟨2025, 1, 31⟩ := by decide
  have hs : monthLin (naiveNextEnd ⟨2025, 1, 1⟩ ⟨2025, 1, 31⟩) <
      monthLin (addDays ⟨2025, 1, 31⟩ 1) + 12 := by decide
  have h := next_invoice_period_amended ⟨2025, 1, 1⟩ ⟨2025, 1, 31⟩ hv hs
  exact ⟨hv, hs, h.1.trans (by decide), h.2.trans (by decide)⟩

/-- C3 (counterexample): with last invoice 2025-01-01..2025-01-31 and
today = 2025-03-05 (after the clamped period end 2025-02-28), the code
reports `days_elapsed = 31` (the unclamped prior duration) while the
claim's formula `min(today, next_end) - next_start + 1` gives 28. -/
theorem next_invoice_days_cex :
    next_invoice_days ⟨2025, 1, 1⟩ ⟨2025, 1, 31⟩ ⟨2025, 3, 5⟩ = some (31, 0) ∧
    min ((rataDie (⟨2025, 3, 5⟩ : Date)) : ℤ)
        ((rataDie (nextInvoicePeriod ⟨2025, 1, 1⟩ ⟨2025, 1, 31⟩).2) : ℤ) -
      ((rataDie (nextInvoicePeriod ⟨2025, 1, 1⟩ ⟨2025, 1, 31⟩).1) : ℤ) + 1 = 28 ∧
    (31 : ℤ) ≠ 28 := by
  refine ⟨?_, by decide, by decide⟩
  decide

/-- C3 (amended): before `next_start` no estimate is produced; from
`next_start` on, `days_remaining = max(0, next_end - today)` always, and
`days_elapsed = min(today, next_end) - next_start + 1` exactly while
`today ≤ next_end` — once `today > next_end` the code uses the *unclamped*
prior period duration instead, which equals the claimed formula only when
no clamping occurred. -/
theorem next_invoice_days_amended (ls le today : Date) :
    (rataDie today < rataDie (nextInvoicePeriod ls le).1 →
      next_invoice_days ls le today = none) ∧
    (rataDie (nextInvoicePeriod ls le).1 ≤ rataDie today →
      ∃ e r, next_invoice_days ls le today = some (e, r) ∧
        r = max 0 ((rataDie (nextInvoicePeriod ls le).2 : ℤ) -
                   (rataDie today : ℤ)) ∧
        (rataDie today ≤ rataDie (nextInvoicePeriod ls le).2 →
          e = min ((rataDie today : ℤ))
                ((rataDie (nextInvoicePeriod ls le).2 : ℤ)) -
              ((rataDie (nextInvoicePeriod ls le).1 : ℤ)) + 1) ∧
        (rataDie (nextInvoicePeriod ls le).2 < rataDie today →
          e = invoice_period_duration ls le)) := by
  constructor
  · intro h
    unfold next_invoice_days
    simp only [if_pos h]
  · intro h
    unfold next_invoice_days
    rw [if_neg (by omega)]
    by_cases h2 : rataDie (nextInvoicePeriod ls le).2 < rataDie today
    · rw [if_pos h2]
      exact ⟨_, _, rfl, by omega, by omega, fun _ => rfl⟩
    · rw [if_neg h2]
      exact ⟨_, _, rfl, by omega, fun _ => by omega, by omega⟩

/-- Witness for C3's amended theorem: inside the derived period
2025-02-01..2025-02-28, on 2025-02-10, 10 days have elapsed and 18
remain; before the period (2025-01-15) there is no estimate. -/
theorem next_invoice_days_amended_w :
    next_invoice_days ⟨2025, 1, 1⟩ ⟨2025, 1, 31⟩ ⟨2025, 2, 10⟩ = some (10, 18) ∧
    next_invoice_days ⟨2025, 1, 1⟩ ⟨2025, 1, 31⟩ ⟨2025, 1, 15⟩ = none := by
  constructor
  · obtain ⟨e, r, heq, hr, he, -⟩ :=
      (next_invoice_days_amended ⟨2025, 1, 1⟩ ⟨2025, 1, 31⟩ ⟨2025, 2, 10⟩).2
        (by decide)
    rw [heq, hr, he (by decide)]
    decide
  · exact (next_invoice_days_amended ⟨2025, 1, 1⟩ ⟨2025, 1, 31⟩ ⟨2025, 1, 15⟩).1
      (by decide)

/-- Keys after one insertion. -/
theorem insertCredit_keys (l : List (String × CreditRecord)) (c : CreditRecord) :
    (insertCredit l c).map Prod.fst =
      (match creditKey c with
       | some k => if k ∈ l.map Prod.fst then l.map Prod.fst
                   else l.map Prod.fst ++ [k]
       | none => l.map Prod.fst) := by
  unfold insertCredit
  cases hck : creditKey c with
  | none => rfl
  | some k =>
    dsimp only
    unfold insertKV
    by_cases hmem : k ∈ l.map Prod.fst
    · rw [if_pos hmem, if_pos hmem, List.map_map]
      refine List.map_congr_left fun p _ => ?_
      by_cases hp : p.1 = k
      · simp [hp]
      · simp [hp]
    · rw [if_neg hmem, if_neg hmem]
      simp

/-- Key membership after one insertion. -/
theorem insertCredit_mem_keys (l : List (String × CreditRecord))
    (c : CreditRecord) (k : String) :
    (k ∈ (insertCredit l c).map Prod.fst ↔
      k ∈ l.map Prod.fst ∨ creditKey c = some k) := by
  rw [insertCredit_keys]
  cases hck : creditKey c with
  | none => simp
  | some k2 =>
    by_cases hmem : k2 ∈ l.map Prod.fst
    · simp only [if_pos hmem]
      constructor
      · exact fun h => Or.inl h
      · rintro (h | h)
        · exact h
        · obtain rfl : k2 = k := by injection h
          exact hmem
    · simp only [if_neg hmem, List.mem_append, List.mem_singleton]
      constructor
      · rintro (h | rfl)
        · exact Or.inl h
        · exact Or.inr rfl
      · rintro (h | h)
        · exact Or.inl h
        · injection h with h
          exact Or.inr h.symm

/-- Key membership after folding a whole credit list. -/
theorem foldl_insertCredit_mem_keys (cs : List CreditRecord) :
    ∀ (l : List (String × CreditRecord)) (k : String),
      (k ∈ (cs.foldl insertCredit l).map Prod.fst ↔
        k ∈ l.map Prod.fst ∨ k ∈ cs.filterMap creditKey) := by
  induction cs with
  | nil => simp
  | cons c cs ih =>
    intro l k
    rw [List.foldl_cons, ih, insertCredit_mem_keys, List.filterMap_cons]
    cases hck : creditKey c with
    | none => simp
    | some k2 =>
      simp only [List.mem_cons]
      constructor
      · rintro ((h | h) | h)
        · exact Or.inl h
        · injection h with h
          exact Or.inr (Or.inl h.symm)
        · exact Or.inr (Or.inr h)
      · rintro (h | rfl | h)
        · exact Or.inl (Or.inl h)
        · exact Or.inl (Or.inr rfl)
        · exact Or.inr h

/-- The insertion loop keeps the key list duplicate-free. -/
theorem foldl_insertCredit_nodup (cs : List CreditRecord) :
    ∀ (l : List (String × CreditRecord)),
      (l.map Prod.fst).Nodup → ((cs.foldl insertCredit l).map Prod.fst).Nodup := by
  induction cs with
  | nil => exact fun l h => h
  | cons c cs ih =>
    intro l hl
    rw [List.foldl_cons]
    refine ih _ ?_
    rw [insertCredit_keys]
    cases creditKey c with
    | none => exact hl
    | some k =>
      by_cases hmem : k ∈ l.map Prod.fst
      · simpa [hmem] using hl
      · simp only [if_neg hmem]
        simp [List.nodup_append, hl, hmem]

/-- Every pair stored by the loop is keyed by its value's credit key. -/
theorem foldl_insertCredit_wellKeyed (cs : List CreditRecord) :
    ∀ (l : List (String × CreditRecord)),
      (∀ p ∈ l, creditKey p.2 = some p.1) →
      ∀ p ∈ cs.foldl insertCredit l, creditKey p.2 = some p.1 := by
  induction cs with
  | nil => exact fun l h => h
  | cons c cs ih =>
    intro l hl
    rw [List.foldl_cons]
    refine ih _ ?_
    intro p hp
    unfold insertCredit at hp
    cases hck : creditKey c with
    | none =>
      rw [hck] at hp
      exact hl p hp
    | some k =>
      rw [hck] at hp
      dsimp only at hp
      unfold insertKV at hp
      by_cases hmem : k ∈ l.map Prod.fst
      · rw [if_pos hmem, List.mem_map] at hp
        obtain ⟨q, hq, hqe⟩ := hp
        by_cases hq1 : q.1 = k
        · rw [if_pos hq1] at hqe
          rw [← hqe]
          exact hck
        · rw [if_neg hq1] at hqe
          rw [← hqe]
          exact hl q hq
      · rw [if_neg hmem, List.mem_append, List.mem_singleton] at hp
        rcases hp with hp | rfl
        · exact hl p hp
        · exact hck

/-- A stored pair carrying key `k` right after `insertKV l k v` is
exactly `(k, v)`. -/
theorem insertKV_key_val (l : List (String × CreditRecord)) (k : String)
    (v : CreditRecord) (p : String × CreditRecord)
    (hp : p ∈ insertKV l k v) (hk : p.1 = k) : p = (k, v) := by
  unfold insertKV at hp
  by_cases hmem : k ∈ l.map Prod.fst
  · rw [if_pos hmem, List.mem_map] at hp
    obtain ⟨q, hq, hqe⟩ := hp
    by_cases hq1 : q.1 = k
    · rw [if_pos hq1] at hqe
      exact hqe.symm
    · rw [if_neg hq1] at hqe
      rw [← hqe] at hk
      exact absurd hk hq1
  · rw [if_neg hmem, List.mem_append, List.mem_singleton] at hp
    rcases hp with hp | rfl
    · exact absurd (hk ▸ List.mem_map_of_mem Prod.fst hp) hmem
    · rfl

/-- Pairs produced by the loop come from the initial dict or carry a value
from the inserted list. -/
theorem foldl_insertCredit_origin (cs : List CreditRecord) :
    ∀ (l : List (String × CreditRecord)) (p : String × CreditRecord),
      p ∈ cs.foldl insertCredit l → p ∈ l ∨ p.2 ∈ cs := by
  induction cs with
  | nil => exact fun l p h => Or.inl h
  | cons c cs ih =>
    intro l p hp
    rw [List.foldl_cons] at hp
    rcases ih _ p hp with h | h
    · unfold insertCredit at h
      cases hck : creditKey c with
      | none =>
        rw [hck] at h
        exact Or.inl h
      | some k =>
        rw [hck] at h
        dsimp only at h
        unfold insertKV at h
        by_cases hmem : k ∈ l.map Prod.fst
        · rw [if_pos hmem, List.mem_map] at h
          obtain ⟨q, hq, hqe⟩ := h
          by_cases hq1 : q.1 = k
          · rw [if_pos hq1] at hqe
            right
            rw [← hqe]
            exact List.mem_cons_self _ _
          · rw [if_neg hq1] at hqe
            exact Or.inl (hqe ▸ hq)
        · rw [if_neg hmem, List.mem_append, List.mem_singleton] at h
          rcases h with h | rfl
          · exact Or.inl h
          · exact Or.inr (List.mem_cons_self _ _)
    · exact Or.inr (List.mem_cons_of_mem _ h)

/-- When a stored pair's key occurs among the inserted credits' keys, the
stored value comes from the inserted list (later insertions win). -/
theorem foldl_insertCredit_wins (cs : List CreditRecord) :
    ∀ (l : List (String × CreditRecord)),
      (∀ p ∈ l, creditKey p.2 = some p.1) →
      ∀ p ∈ cs.foldl insertCredit l,
        p.1 ∈ cs.filterMap creditKey → p.2 ∈ cs := by
  induction cs with
  | nil => simp
  | cons c cs ih =>
    intro l hl p hp hkey
    rw [List.foldl_cons] at hp
    have hl2 : ∀ q ∈ insertCredit l c, creditKey q.2 = some q.1 := by
      have := foldl_insertCredit_wellKeyed [c] l hl
      simpa using this
    by_cases hmem : p.1 ∈ cs.filterMap creditKey
    · exact List.mem_cons_of_mem _ (ih _ hl2 p hp hmem)
    · have hck : creditKey c = some p.1 := by
        rw [List.filterMap_cons] at hkey
        cases hc : creditKey c with
        | none =>
          rw [hc] at hkey
          exact absurd hkey hmem
        | some k2 =>
          rw [hc] at hkey
          rcases List.mem_cons.mp hkey with rfl | h
          · rfl
          · exact absurd h hmem
      rcases foldl_insertCredit_origin cs _ p hp with h | h
      · unfold insertCredit at h
        rw [hck] at h
        have := insertKV_key_val l p.1 c p h rfl
        rw [this]
        exact List.mem_cons_self _ _
      · exfalso
        have hpk := foldl_insertCredit_wellKeyed cs (insertCredit l c) hl2 p hp
        exact hmem (List.mem_filterMap.mpr ⟨p.2, h, hpk⟩)

/-- Applying `creditKey` to the stored values recovers the key list. -/
theorem map_snd_filterMap_key (l : List (String × CreditRecord))
    (hl : ∀ p ∈ l, creditKey p.2 = some p.1) :
    (l.map Prod.snd).filterMap creditKey = l.map Prod.fst := by
  induction l with
  | nil => rfl
  | cons p l ih =>
    rw [List.map_cons, List.filterMap_cons, hl p (List.mem_cons_self _ _),
      List.map_cons, ih (fun q hq => hl q (List.mem_cons_of_mem _ hq))]

/-- C8 (counterexample): with an *empty* historical list, the merge
returns the recent structure unchanged (coordinator.py:386-387), so two
recent records sharing id `"a"` both survive: the merged list has length
2 while there is only 1 distinct deduplication key. -/
theorem merge_credits_cex :
    merge_credits_data [dupCreditA, dupCreditB] [] = [dupCreditA, dupCreditB] ∧
    (([] ++ [dupCreditA, dupCreditB] :
        List CreditRecord).filterMap creditKey).toFinset.card = 1 ∧
    (merge_credits_data [dupCreditA, dupCreditB] []).length = 2 := by
  refine ⟨rfl, ?_, rfl⟩
  decide

/-- C8 (amended): when the historical list is nonempty, the merge yields
exactly one record per distinct deduplication key (truthy `id`, else
truthy `createdAt`; records with neither are dropped), the recent version
wins on key collision, and the merged length equals the number of distinct
keys across both inputs; when the historical list is empty, the recent
list is returned unchanged, without any deduplication. -/
theorem merge_credits_amended (recent historical : List CreditRecord)
    (hne : historical ≠ []) :
    (∀ c ∈ merge_credits_data recent historical, ∃ k, creditKey c = some k) ∧
    ((merge_credits_data recent historical).filterMap creditKey).Nodup ∧
    (merge_credits_data recent historical).length =
      ((historical ++ recent).filterMap creditKey).toFinset.card ∧
    (∀ c ∈ merge_credits_data recent historical, ∀ k, creditKey c = some k →
      k ∈ recent.filterMap creditKey → c ∈ recent) := by
  have hne2 : historical.isEmpty = false := by
    cases historical with
    | nil => exact absurd rfl hne
    | cons a l => rfl
  have hmerge : merge_credits_data recent historical =
      (recent.foldl insertCredit (historical.foldl insertCredit [])).map Prod.snd := by
    unfold merge_credits_data
    rw [hne2]
    rfl
  set d1 := historical.foldl insertCredit [] with hd1
  set d2 := recent.foldl insertCredit d1 with hd2
  have hA1 : ∀ p ∈ d1, creditKey p.2 = some p.1 :=
    foldl_insertCredit_wellKeyed historical [] (by simp)
  have hA2 : ∀ p ∈ d2, creditKey p.2 = some p.1 :=
    foldl_insertCredit_wellKeyed recent d1 hA1
  have hnodup : (d2.map Prod.fst).Nodup :=
    foldl_insertCredit_nodup recent d1
      (foldl_insertCredit_nodup historical [] (by simp))
  have hkeys : ∀ k, k ∈ d2.map Prod.fst ↔
      k ∈ (historical ++ recent).filterMap creditKey := by
    intro k
    rw [hd2, foldl_insertCredit_mem_keys, hd1, foldl_insertCredit_mem_keys,
      List.filterMap_append, List.mem_append]
    simp [or_comm]
  refine ⟨?_, ?_, ?_, ?_⟩
  · intro c hc
    rw [hmerge, List.mem_map] at hc
    obtain ⟨p, hp, rfl⟩ := hc
    exact ⟨p.1, hA2 p hp⟩
  · rw [hmerge, map_snd_filterMap_key d2 hA2]
    exact hnodup
  · rw [hmerge, List.length_map]
    have hlen : d2.length = (d2.map Prod.fst).length := (List.length_map _ _).symm
    rw [hlen]
    have hfin : (d2.map Prod.fst).toFinset =
        ((historical ++ recent).filterMap creditKey).toFinset := by
      ext k
      simp only [List.mem_toFinset]
      exact hkeys k
    rw [← hfin, List.card_toFinset, hnodup.dedup]
  · intro c hc k hk hkr
    rw [hmerge, List.mem_map] at hc
    obtain ⟨p, hp, rfl⟩ := hc
    have hpk : p.1 = k := by
      have := hA2 p hp
      rw [this] at hk
      injection hk
    exact foldl_insertCredit_wins recent d1 hA1 p hp (hpk ▸ hkr)

/-- Witness for C8's amended theorem: merging the two concrete lists keeps
the recent version of `"a"`, keeps the historical-only `"h"`, and the
merged length 2 equals the number of distinct keys. -/
theorem merge_credits_amended_w :
    witHistCredits ≠ [] ∧
    (merge_credits_data witRecentCredits witHistCredits).length =
      ((witHistCredits ++ witRecentCredits).filterMap creditKey).toFinset.card ∧
    merge_credits_data witRecentCredits witHistCredits =
      [⟨some "a", none, 75⟩, ⟨some "h", none, 1⟩] := by
  refine ⟨by decide, ?_, by decide⟩
  exact (merge_credits_amended witRecentCredits witHistCredits (by decide)).2.2.1

/-- Membership is preserved by sorted insertion. -/
theorem mem_insertDescBy {α : Type} (le : α → α → Bool) (y : α)
    (l : List α) (x : α) : x ∈ insertDescBy le y l ↔ x = y ∨ x ∈ l := by
  induction l with
  | nil => simp [insertDescBy]
  | cons z zs ih =>
    unfold insertDescBy
    by_cases h : le z y
    · simp [h]
    · simp only [if_neg h, List.mem_cons, ih]
      tauto

/-- Membership is preserved by the descending sort. -/
theorem mem_sortDescBy {α : Type} (le : α → α → Bool) (l : List α) (x : α) :
    x ∈ sortDescBy le l ↔ x ∈ l := by
  induction l with
  | nil => simp [sortDescBy]
  | cons y ys ih =>
    show x ∈ insertDescBy le y (sortDescBy le ys) ↔ _
    rw [mem_insertDescBy]
    simp [ih]

/-- The head of the descending sort is a maximum (for total transitive
`le`). -/
theorem sortDescBy_head_max {α : Type} (le : α → α → Bool)
    (htot : ∀ a b, le a b = true ∨ le b a = true)
    (htrans : ∀ a b c, le a b = true → le b c = true → le a c = true)
    (l : List α) (hne : l ≠ []) :
    ∃ m, (sortDescBy le l).head? = some m ∧ m ∈ l ∧ ∀ x ∈ l, le x m = true := by
  induction l with
  | nil => exact absurd rfl hne
  | cons y ys ih =>
    by_cases hys : ys = []
    · subst hys
      refine ⟨y, rfl, List.mem_singleton.mpr rfl, ?_⟩
      intro x hx
      rw [List.mem_singleton] at hx
      subst hx
      rcases htot x x with h | h <;> exact h
    · obtain ⟨m, hm1, hm2, hm3⟩ := ih hys
      show ∃ m2, (insertDescBy le y (sortDescBy le ys)).head? = some m2 ∧ _
      obtain ⟨rest, hrest⟩ : ∃ rest, sortDescBy le ys = m :: rest := by
        cases hcase : sortDescBy le ys with
        | nil => rw [hcase] at hm1; exact absurd hm1 (by simp)
        | cons a r =>
          rw [hcase] at hm1
          obtain rfl : a = m := by simpa using hm1
          exact ⟨r, rfl⟩
      rw [hrest]
      unfold insertDescBy
      by_cases hle : le m y
      · refine ⟨y, by rw [if_pos hle]; rfl, List.mem_cons_self _ _, ?_⟩
        intro x hx
        rcases List.mem_cons.mp hx with rfl | hx
        · rcases htot x x with h | h <;> exact h
        · exact htrans x m y (hm3 x hx) hle
      · refine ⟨m, by rw [if_neg hle]; rfl, List.mem_cons_of_mem _ hm2, ?_⟩
        intro x hx
        rcases List.mem_cons.mp hx with rfl | hx
        · rcases htot x m with h | h
          · exact h
          · exact absurd h hle
        · exact hm3 x hx

/-- `dateLeB` is total. -/
theorem dateLeB_total (a b : Date) : dateLeB a b = true ∨ dateLeB b a = true := by
  unfold dateLeB
  rcases le_total (rataDie a) (rataDie b) with h | h
  · exact Or.inl (by simpa using h)
  · exact Or.inr (by simpa using h)

/-- `dateLeB` is transitive. -/
theorem dateLeB_trans (a b c : Date) (h1 : dateLeB a b = true)
    (h2 : dateLeB b c = true) : dateLeB a c = true := by
  unfold dateLeB at *
  simp only [decide_eq_true_eq] at *
  omega

/-- `monthKeyLeB` is total. -/
theorem monthKeyLeB_total (a b : Nat × Nat) :
    monthKeyLeB a b = true ∨ monthKeyLeB b a = true := by
  unfold monthKeyLeB
  simp only [decide_eq_true_eq]
  omega

/-- `monthKeyLeB` is transitive. -/
theorem monthKeyLeB_trans (a b c : Nat × Nat) (h1 : monthKeyLeB a b = true)
    (h2 : monthKeyLeB b c = true) : monthKeyLeB a c = true := by
  unfold monthKeyLeB at *
  simp only [decide_eq_true_eq] at *
  omega

/-- The aggregation loop is the bump-fold of the item contributions. -/
theorem group_consumption_by_eq_contrib {κ : Type} [DecidableEq κ]
    (key : Date → κ) (parse : String → Option Date)
    (items : List ConsumptionItem) :
    group_consumption_by key parse items =
      (items.filterMap (itemContrib key parse)).foldl
        (fun a p => bumpTotal a p.1 p.2) [] := by
  suffices h : ∀ acc : List (κ × ℚ),
      items.foldl (fun acc it =>
        match itemTimeStr it with
        | none => acc
        | some s =>
          match parse s with
          | none => acc
          | some dt => bumpTotal acc (key dt) (itemConsumption it)) acc =
      (items.filterMap (itemContrib key parse)).foldl
        (fun a p => bumpTotal a p.1 p.2) acc by
    exact h []
  induction items with
  | nil => intro acc; rfl
  | cons it items ih =>
    intro acc
    rw [List.foldl_cons, List.filterMap_cons]
    cases hts : itemTimeStr it with
    | none =>
      simp only [itemContrib, hts, Option.bind, Option.map_none']
      exact ih acc
    | some s =>
      cases hp : parse s with
      | none =>
        simp only [itemContrib, hts, Option.some_bind, hp, Option.map_none']
        exact ih acc
      | some dt =>
        simp only [itemContrib, hts, Option.some_bind, hp, Option.map_some',
          List.foldl_cons]
        exact ih _

/-- Keys after one bump. -/
theorem bumpTotal_keys {κ : Type} [DecidableEq κ] (acc : List (κ × ℚ))
    (k : κ) (q : ℚ) :
    (bumpTotal acc k q).map Prod.fst =
      (if k ∈ acc.map Prod.fst then acc.map Prod.fst
       else acc.map Prod.fst ++ [k]) := by
  induction acc with
  | nil => simp [bumpTotal]
  | cons p rest ih =>
    unfold bumpTotal
    by_cases hp : p.1 = k
    · simp [hp]
    · have hpk : ¬k = p.1 := fun hc => hp hc.symm
      simp only [if_neg hp, List.map_cons, ih, List.mem_cons]
      by_cases hmem : k ∈ rest.map Prod.fst
      · simp [hmem, hpk]
      · simp [hmem, hpk]

/-- `valTotal` after bumping the same key. -/
theorem valTotal_bump_same {κ : Type} [DecidableEq κ] (acc : List (κ × ℚ))
    (k : κ) (q : ℚ) : valTotal (bumpTotal acc k q) k = valTotal acc k + q := by
  induction acc with
  | nil =>
    unfold bumpTotal valTotal
    rw [List.find?_cons_of_pos _ (by simp)]
    simp
  | cons p rest ih =>
    unfold bumpTotal
    by_cases hp : p.1 = k
    · simp only [if_pos hp]
      unfold valTotal
      rw [List.find?_cons_of_pos _ (by simpa using hp),
        List.find?_cons_of_pos _ (by simpa using hp)]
      simp
    · simp only [if_neg hp]
      unfold valTotal
      rw [List.find?_cons_of_neg _ (by simpa using hp),
        List.find?_cons_of_neg _ (by simpa using hp)]
      exact ih

/-- `valTotal` after bumping a different key. -/
theorem valTotal_bump_ne {κ : Type} [DecidableEq κ] (acc : List (κ × ℚ))
    (k k2 : κ) (q : ℚ) (h : k2 ≠ k) :
    valTotal (bumpTotal acc k q) k2 = valTotal acc k2 := by
  induction acc with
  | nil =>
    have hk : ¬(k = k2) := fun hc => h hc.symm
    unfold bumpTotal valTotal
    rw [List.find?_cons_of_neg _ (by simpa using hk)]
  | cons p rest ih =>
    unfold bumpTotal
    by_cases hp : p.1 = k
    · have hp2 : ¬(p.1 = k2) := by
        rw [hp]
        exact fun hc => h hc.symm
      simp only [if_pos hp]
      unfold valTotal
      rw [List.find?_cons_of_neg _ (by simpa using hp2),
        List.find?_cons_of_neg _ (by simpa using hp2)]
    · simp only [if_neg hp]
      unfold valTotal
      by_cases hp2 : p.1 = k2
      · rw [List.find?_cons_of_pos _ (by simpa using hp2),
          List.find?_cons_of_pos _ (by simpa using hp2)]
      · rw [List.find?_cons_of_neg _ (by simpa using hp2),
          List.find?_cons_of_neg _ (by simpa using hp2)]
        exact ih

/-- Bump-folding a pair list adds exactly the key's contribution sum. -/
theorem foldl_bump_valTotal {κ : Type} [DecidableEq κ] (ps : List (κ × ℚ)) :
    ∀ (acc : List (κ × ℚ)) (k : κ),
      valTotal (ps.foldl (fun a p => bumpTotal a p.1 p.2) acc) k =
        valTotal acc k + keyContribSum ps k := by
  induction ps with
  | nil => simp [keyContribSum]
  | cons p ps ih =>
    intro acc k
    rw [List.foldl_cons, ih]
    unfold keyContribSum
    rw [List.filter_cons]
    by_cases hp : p.1 = k
    · subst hp
      rw [valTotal_bump_same]
      simp [add_assoc]
    · have hkp : k ≠ p.1 := fun hc => hp hc.symm
      rw [valTotal_bump_ne acc p.1 k p.2 hkp]
      have hd : (decide (p.1 = k)) = false := by simpa using hp
      rw [hd]
      simp

/-- Key membership after bump-folding a pair list. -/
theorem foldl_bump_mem_keys {κ : Type} [DecidableEq κ] (ps : List (κ × ℚ)) :
    ∀ (acc : List (κ × ℚ)) (k : κ),
      (k ∈ (ps.foldl (fun a p => bumpTotal a p.1 p.2) acc).map Prod.fst ↔
        k ∈ acc.map Prod.fst ∨ k ∈ ps.map Prod.fst) := by
  induction ps with
  | nil => simp
  | cons p ps ih =>
    intro acc k
    rw [List.foldl_cons, ih, bumpTotal_keys]
    by_cases hmem : p.1 ∈ acc.map Prod.fst
    · simp only [if_pos hmem, List.map_cons, List.mem_cons]
      constructor
      · rintro (h | h)
        · exact Or.inl h
        · exact Or.inr (Or.inr h)
      · rintro (h | rfl | h)
        · exact Or.inl h
        · exact Or.inl hmem
        · exact Or.inr h
    · simp only [if_neg hmem, List.mem_append, List.mem_singleton,
        List.map_cons, List.mem_cons]
      tauto

/-- Filtering out the unusable items does not change the contributions. -/
theorem filterMap_contrib_filter (parse : String → Option Date)
    (items : List ConsumptionItem) :
    (items.filter (fun it => ((itemTimeStr it).bind parse).isSome)).filterMap
        (itemContrib (fun d => d) parse) =
      items.filterMap (itemContrib (fun d => d) parse) := by
  induction items with
  | nil => rfl
  | cons it items ih =>
    rw [List.filter_cons]
    cases hb : (itemTimeStr it).bind parse with
    | none =>
      have hc : itemContrib (fun d => d) parse it = none := by
        unfold itemContrib
        rw [hb]
        rfl
      simp only [Option.isSome_none, Bool.false_eq_true, if_false,
        List.filterMap_cons, hc, ih]
    | some dt =>
      have hc : itemContrib (fun d => d) parse it =
          some (dt, itemConsumption it) := by
        unfold itemContrib
        rw [hb]
        rfl
      simp only [Option.isSome_some, if_true, List.filterMap_cons, hc, ih]

/-- A date is a key of the contributions iff some item parses to it. -/
theorem mem_contrib_keys (parse : String → Option Date)
    (items : List ConsumptionItem) (d : Date) :
    (d ∈ (items.filterMap (itemContrib (fun x => x) parse)).map Prod.fst ↔
      ∃ it ∈ items, (itemTimeStr it).bind parse = some d) := by
  induction items with
  | nil => simp
  | cons it items ih =>
    rw [List.filterMap_cons]
    cases hb : (itemTimeStr it).bind parse with
    | none =>
      have : itemContrib (fun x => x) parse it = none := by
        unfold itemContrib
        rw [hb]
        rfl
      rw [this]
      simp only [List.mem_cons, ih]
      constructor
      · rintro ⟨it2, h2, h3⟩
        exact ⟨it2, Or.inr h2, h3⟩
      · rintro ⟨it2, h2 | h2, h3⟩
        · subst h2
          rw [hb] at h3
          exact absurd h3 (by simp)
        · exact ⟨it2, h2, h3⟩
    | some dt =>
      have : itemContrib (fun x => x) parse it = some (dt, itemConsumption it) := by
        unfold itemContrib
        rw [hb]
        rfl
      rw [this]
      simp only [List.map_cons, List.mem_cons, ih]
      constructor
      · rintro (rfl | ⟨it2, h2, h3⟩)
        · exact ⟨it, Or.inl rfl, hb⟩
        · exact ⟨it2, Or.inr h2, h3⟩
      · rintro ⟨it2, rfl | h2, h3⟩
        · rw [hb] at h3
          left
          injection h3 with h3
          exact h3.symm
        · exact Or.inr ⟨it2, h2, h3⟩

/-- The contribution sum at a date is the sum over the items parsing to
that date. -/
theorem keyContribSum_contrib (parse : String → Option Date)
    (items : List ConsumptionItem) (d : Date) :
    keyContribSum (items.filterMap (itemContrib (fun x => x) parse)) d =
      ((items.filter (fun it =>
        decide ((itemTimeStr it).bind parse = some d))).map itemConsumption).sum := by
  induction items with
  | nil => rfl
  | cons it items ih =>
    rw [List.filterMap_cons, List.filter_cons]
    cases hb : (itemTimeStr it).bind parse with
    | none =>
      have hc : itemContrib (fun x => x) parse it = none := by
        unfold itemContrib
        rw [hb]
        rfl
      rw [hc]
      have h2 : (decide ((none : Option Date) = some d)) = false := by simp
      rw [h2]
      simp only [Bool.false_eq_true, if_false]
      exact ih
    | some dt =>
      have hc : itemContrib (fun x => x) parse it =
          some (dt, itemConsumption it) := by
        unfold itemContrib
        rw [hb]
        rfl
      rw [hc]
      unfold keyContribSum at ih ⊢
      rw [List.filter_cons]
      by_cases hdd : dt = d
      · subst hdd
        have h1 : (decide (((dt, itemConsumption it) : Date × ℚ).1 = dt)) = true := by
          simp
        have h2 : (decide ((some dt : Option Date) = some dt)) = true := by simp
        rw [h1, h2]
        simp only [if_true, List.map_cons, List.sum_cons, ih]
      · have h1 : (decide (((dt, itemConsumption it) : Date × ℚ).1 = d)) = false := by
          simpa using hdd
        have h2 : (decide ((some dt : Option Date) = some d)) = false := by
          simpa using hdd
        rw [h1, h2]
        simp only [Bool.false_eq_true, if_false, ih]

/-- `valTotal` of the empty dict is 0. -/
theorem valTotal_nil {κ : Type} [DecidableEq κ] (k : κ) :
    valTotal ([] : List (κ × ℚ)) k = 0 := rfl

/-- C9: day-level aggregation skips exactly the records whose timestamp is
missing or fails to parse (removing them beforehand changes nothing), a
bucket exists exactly when some record parses into it, and each bucket
holds the sum of all remaining records that parse into it; the aggregation
is a total function — a malformed record never aborts it. -/
theorem group_by_date_malformed (parse : String → Option Date)
    (items : List ConsumptionItem) :
    group_consumption_by_date parse items =
      group_consumption_by_date parse
        (items.filter (fun it => ((itemTimeStr it).bind parse).isSome)) ∧
    (∀ d, d ∈ (group_consumption_by_date parse items).map Prod.fst ↔
      ∃ it ∈ items, (itemTimeStr it).bind parse = some d) ∧
    (∀ d, valTotal (group_consumption_by_date parse items) d =
      ((items.filter (fun it =>
        decide ((itemTimeStr it).bind parse = some d))).map itemConsumption).sum) := by
  refine ⟨?_, ?_, ?_⟩
  · unfold group_consumption_by_date
    rw [group_consumption_by_eq_contrib, group_consumption_by_eq_contrib,
      filterMap_contrib_filter]
  · intro d
    unfold group_consumption_by_date
    rw [group_consumption_by_eq_contrib, foldl_bump_mem_keys]
    simp only [List.map_nil, List.not_mem_nil, false_or]
    exact mem_contrib_keys parse items d
  · intro d
    unfold group_consumption_by_date
    rw [group_consumption_by_eq_contrib, foldl_bump_valTotal, valTotal_nil,
      zero_add]
    exact keyContribSum_contrib parse items d

/-- Bumping never produces an empty dict. -/
theorem bumpTotal_ne_nil {κ : Type} [DecidableEq κ] (acc : List (κ × ℚ))
    (k : κ) (q : ℚ) : bumpTotal acc k q ≠ [] := by
  cases acc with
  | nil => simp [bumpTotal]
  | cons p rest =>
    unfold bumpTotal
    by_cases hp : p.1 = k <;> simp [hp]

/-- The bump fold is empty only when it had nothing to do. -/
theorem foldl_bump_eq_nil {κ : Type} [DecidableEq κ] (ps : List (κ × ℚ)) :
    ∀ acc : List (κ × ℚ),
      (ps.foldl (fun a p => bumpTotal a p.1 p.2) acc = [] ↔ acc = [] ∧ ps = []) := by
  induction ps with
  | nil => simp
  | cons p ps ih =>
    intro acc
    rw [List.foldl_cons, ih]
    simp [bumpTotal_ne_nil]

/-- An item contributes nothing iff its timestamp is missing or fails to
parse. -/
theorem itemContrib_eq_none {κ : Type} [DecidableEq κ] (key : Date → κ)
    (parse : String → Option Date) (it : ConsumptionItem) :
    (itemContrib key parse it = none ↔ (itemTimeStr it).bind parse = none) := by
  unfold itemContrib
  cases (itemTimeStr it).bind parse <;> simp

/-- A grouping is empty iff every item lacks a usable timestamp —
independently of the bucketing key. -/
theorem group_consumption_by_empty_iff {κ : Type} [DecidableEq κ]
    (key : Date → κ) (parse : String → Option Date)
    (items : List ConsumptionItem) :
    (group_consumption_by key parse items = [] ↔
      ∀ it ∈ items, (itemTimeStr it).bind parse = none) := by
  rw [group_consumption_by_eq_contrib, foldl_bump_eq_nil]
  simp only [true_and, List.filterMap_eq_nil_iff]
  constructor
  · intro h it hit
    exact (itemContrib_eq_none key parse it).mp (h it hit)
  · intro h it hit
    exact (itemContrib_eq_none key parse it).mpr (h it hit)

/-- C5 (amended): the day-granularity selection behaves as the claim
states — current bucket with data returned with `is_today = true`, else
the most-recently-dated bucket with data with `is_today = false`, absent
when no buckets exist; the month-granularity selection however tests
"current bucket has data" by *nonzero month-so-far sum*: a nonzero sum
yields the current month with `is_current = true`, a zero sum (even when
the current month has records, all summing to 0) falls back to the
most-recent month bucket with `is_current = false`, and no buckets means
absent. -/
theorem select_reporting_amended (parse : String → Option Date)
    (consumption : List ConsumptionItem) (today : Date) :
    (group_consumption_by_date parse consumption = [] →
      daily_consumption_native parse consumption today = none ∧
      monthly_consumption_native parse consumption today = none) ∧
    (today ∈ (group_consumption_by_date parse consumption).map Prod.fst →
      daily_consumption_native parse consumption today =
        some (today,
          pyRound 3 (valTotal (group_consumption_by_date parse consumption) today),
          true)) ∧
    (group_consumption_by_date parse consumption ≠ [] →
      today ∉ (group_consumption_by_date parse consumption).map Prod.fst →
      ∃ m, daily_consumption_native parse consumption today =
          some (m,
            pyRound 3 (valTotal (group_consumption_by_date parse consumption) m),
            false) ∧
        m ∈ (group_consumption_by_date parse consumption).map Prod.fst ∧
        ∀ d ∈ (group_consumption_by_date parse consumption).map Prod.fst,
          rataDie d ≤ rataDie m) ∧
    (group_consumption_by_date parse consumption ≠ [] →
      month_so_far_total (group_consumption_by_date parse consumption) today ≠ 0 →
      monthly_consumption_native parse consumption today =
        some ((today.year, today.month),
          pyRound 3
            (month_so_far_total (group_consumption_by_date parse consumption) today),
          true)) ∧
    (group_consumption_by_date parse consumption ≠ [] →
      month_so_far_total (group_consumption_by_date parse consumption) today = 0 →
      ∃ mk, monthly_consumption_native parse consumption today =
          some (mk,
            pyRound 3
              (month_full_total (group_consumption_by_date parse consumption) mk),
            false) ∧
        mk ∈ (group_consumption_by_month parse consumption).map Prod.fst ∧
        ∀ k ∈ (group_consumption_by_month parse consumption).map Prod.fst,
          monthKeyLeB k mk = true) := by
  refine ⟨?_, ?_, ?_, ?_, ?_⟩
  · intro hT
    have hTe : (group_consumption_by_date parse consumption).isEmpty = true := by
      rw [hT]
      rfl
    constructor
    · unfold daily_consumption_native
      by_cases hc : consumption.isEmpty
      · rw [if_pos hc]
      · rw [if_neg hc, if_pos hTe]
    · unfold monthly_consumption_native
      by_cases hc : consumption.isEmpty
      · rw [if_pos hc]
      · rw [if_neg hc, if_pos hTe]
  · intro hmem
    have hTne : group_consumption_by_date parse consumption ≠ [] := by
      intro h
      rw [h] at hmem
      simp at hmem
    have hce : ¬consumption.isEmpty = true := by
      intro h
      rw [List.isEmpty_iff] at h
      subst h
      exact hTne rfl
    have hTe : ¬(group_consumption_by_date parse consumption).isEmpty = true := by
      intro h
      rw [List.isEmpty_iff] at h
      exact hTne h
    unfold daily_consumption_native
    rw [if_neg hce, if_neg hTe, if_pos hmem]
    simp
  · intro hTne hmem
    have hce : ¬consumption.isEmpty = true := by
      intro h
      rw [List.isEmpty_iff] at h
      subst h
      exact hTne rfl
    have hTe : ¬(group_consumption_by_date parse consumption).isEmpty = true := by
      intro h
      rw [List.isEmpty_iff] at h
      exact hTne h
    have hkeysne : (group_consumption_by_date parse consumption).map Prod.fst ≠ [] := by
      intro h
      exact hTne (List.map_eq_nil_iff.mp h)
    obtain ⟨m, hm1, hm2, hm3⟩ :=
      sortDescBy_head_max dateLeB dateLeB_total dateLeB_trans _ hkeysne
    have hmt : m ≠ today := by
      intro h
      subst h
      exact hmem hm2
    refine ⟨m, ?_, hm2, fun d hd => ?_⟩
    · unfold daily_consumption_native
      rw [if_neg hce, if_neg hTe, if_neg hmem, hm1]
      simp [hmt]
    · have := hm3 d hd
      unfold dateLeB at this
      simpa using this
  · intro hTne hcum
    have hce : ¬consumption.isEmpty = true := by
      intro h
      rw [List.isEmpty_iff] at h
      subst h
      exact hTne rfl
    have hTe : ¬(group_consumption_by_date parse consumption).isEmpty = true := by
      intro h
      rw [List.isEmpty_iff] at h
      exact hTne h
    unfold monthly_consumption_native
    rw [if_neg hce, if_neg hTe, if_neg (fun hand => hcum hand.1)]
  · intro hTne hcum
    have hce : ¬consumption.isEmpty = true := by
      intro h
      rw [List.isEmpty_iff] at h
      subst h
      exact hTne rfl
    have hTe : ¬(group_consumption_by_date parse consumption).isEmpty = true := by
      intro h
      rw [List.isEmpty_iff] at h
      exact hTne h
    have hMne : group_consumption_by_month parse consumption ≠ [] := by
      intro h
      exact hTne ((group_consumption_by_empty_iff (fun d => d) parse consumption).mpr
        ((group_consumption_by_empty_iff (fun d => (d.year, d.month)) parse
          consumption).mp h))
    have hkeysne : (group_consumption_by_month parse consumption).map Prod.fst ≠ [] := by
      intro h
      exact hMne (List.map_eq_nil_iff.mp h)
    obtain ⟨mk, hk1, hk2, hk3⟩ :=
      sortDescBy_head_max monthKeyLeB monthKeyLeB_total monthKeyLeB_trans _ hkeysne
    have hsne : ¬(sortDescBy monthKeyLeB
        ((group_consumption_by_month parse consumption).map Prod.fst)).isEmpty = true := by
      intro h
      rw [List.isEmpty_iff] at h
      rw [h] at hk1
      exact absurd hk1 (by simp)
    refine ⟨mk, ?_, hk2, hk3⟩
    unfold monthly_consumption_native
    rw [if_neg hce, if_neg hTe, if_pos ⟨hcum, hsne⟩, hk1]

/-- C5 (counterexample): on 2025-06-10 the month bucket (2025, 6) contains
"now" and *has data* (one record), yet the monthly selection returns it
through the zero-sum fallback path with `is_current = false` — refuting
"the bucket containing now is returned with is_current = true whenever it
has data". -/
theorem select_reporting_cex :
    ((2025 : Nat), (6 : Nat)) ∈
      (group_consumption_by_month cexParse cexItems).map Prod.fst ∧
    monthly_consumption_native cexParse cexItems ⟨2025, 6, 10⟩ =
      some ((2025, 6), 0, false) := by
  have hdaily : group_consumption_by_date cexParse cexItems =
      [(⟨2025, 6, 5⟩, 0)] := rfl
  have hmonthly : group_consumption_by_month cexParse cexItems =
      [((2025, 6), 0)] := rfl
  have hmem : ((2025 : Nat), (6 : Nat)) ∈
      (group_consumption_by_month cexParse cexItems).map Prod.fst := by
    rw [hmonthly]
    simp
  refine ⟨hmem, ?_⟩
  have hcum : month_so_far_total (group_consumption_by_date cexParse cexItems)
      ⟨2025, 6, 10⟩ = 0 := by
    have h0 : month_so_far_total (group_consumption_by_date cexParse cexItems)
        ⟨2025, 6, 10⟩ = 0 + 0 := rfl
    rw [h0]
    norm_num
  have hkeys : (group_consumption_by_month cexParse cexItems).map Prod.fst =
      [(2025, 6)] := by
    rw [hmonthly]
    rfl
  have hsorted : sortDescBy monthKeyLeB
      ((group_consumption_by_month cexParse cexItems).map Prod.fst) =
      [(2025, 6)] := by
    rw [hkeys]
    rfl
  have hfull : pyRound 3 (month_full_total
      (group_consumption_by_date cexParse cexItems) (2025, 6)) = 0 := by
    have h0 : month_full_total (group_consumption_by_date cexParse cexItems)
        (2025, 6) = 0 + 0 := rfl
    rw [h0]
    norm_num [pyRound]
  unfold monthly_consumption_native
  rw [if_neg (by decide : ¬cexItems.isEmpty = true),
    if_neg (show ¬(group_consumption_by_date cexParse cexItems).isEmpty = true by
      rw [hdaily]; decide),
    if_pos ⟨hcum, by rw [hsorted]; decide⟩, hsorted]
  show some ((2025, 6), pyRound 3 (month_full_total
    (group_consumption_by_date cexParse cexItems) (2025, 6)), false) =
    some ((2025, 6), 0, false)
  rw [hfull]

/-- Witness for C5's amended theorem: with data for 2025-06-05 (2 kWh) and
2025-06-04, the day selection on today = 2025-06-05 returns today's bucket
with `is_today = true`. -/
theorem select_reporting_amended_w :
    (⟨2025, 6, 5⟩ : Date) ∈
      (group_consumption_by_date witParse witConsumption).map Prod.fst ∧
    daily_consumption_native witParse witConsumption ⟨2025, 6, 5⟩ =
      some (⟨2025, 6, 5⟩, 2, true) := by
  have hdaily : group_consumption_by_date witParse witConsumption =
      [(⟨2025, 6, 5⟩, 2), (⟨2025, 6, 4⟩, 3)] := rfl
  have hmem : (⟨2025, 6, 5⟩ : Date) ∈
      (group_consumption_by_date witParse witConsumption).map Prod.fst := by
    rw [hdaily]
    simp
  have h := (select_reporting_amended witParse witConsumption ⟨2025, 6, 5⟩).2.1 hmem
  refine ⟨hmem, ?_⟩
  rw [h, hdaily]
  have hval : valTotal [((⟨2025, 6, 5⟩ : Date), (2 : ℚ)), (⟨2025, 6, 4⟩, 3)]
      ⟨2025, 6, 5⟩ = 2 := rfl
  rw [hval]
  have hr : pyRound 3 (2 : ℚ) = 2 := by norm_num [pyRound]
  rw [hr]
